import Mathlib

/-!
Verification of the glob-to-regex compiler of the fnmatch-regex crate
(file src/glob.rs). The compiler is embedded shallowly: the scanner state
machine, the character-class and alternation normalizers and the escaping
helpers are translated from the source, with patterns and the generated
regex text represented as lists of characters. The external regex engine
(the regex crate) is not part of the repository sources; following the
spec it is modelled as a parser of the emitted regex dialect together
with a derivative-based matcher.
-/

namespace Fnmatch

/-- Something that may appear in a character class. The constructor chr
models the source variant Char and rng models the source variant Range. -/
inductive ClassItem where
  | chr (c : Char)
  | rng (lo hi : Char)
deriving DecidableEq, Repr

/-- An accumulator for building the representation of a character class. -/
structure ClassAccumulator where
  negated : Bool
  items : List ClassItem
deriving DecidableEq, Repr

/-- The current state of the glob pattern parser, one constructor per
source variant, carrying the same data. -/
inductive State where
  | Literal
  | Escape
  | ClassStart
  | Class (acc : ClassAccumulator)
  | ClassRange (acc : ClassAccumulator) (lo : Char)
  | ClassRangeDash (acc : ClassAccumulator)
  | ClassEscape (acc : ClassAccumulator)
  | Alternate (current : List Char) (gathered : List (List Char))
  | AlternateEscape (current : List Char) (gathered : List (List Char))
deriving DecidableEq, Repr

/-- The error kinds produced by glob_to_regex. In the source each of
NotImplemented and InvalidRegex also carries diagnostic text (the Debug
formatting of the accumulator, and the engine message); that text is
Display-only and is not modelled, only the data the claims observe. -/
inductive FError where
  | BareEscape
  | UnclosedClass
  | UnclosedAlternation
  | ReversedRange (lo hi : Char)
  | RangeAfterRange (lo hi : Char)
  | NotImplemented
  | InvalidRegex (re : List Char)
deriving DecidableEq, Repr

/-- Escape a character in a character class if necessary (source
push_escaped_in_class); the characters pushed onto the buffer. -/
def push_escaped_in_class (chr : Char) : List Char :=
  if chr = ']' ∨ chr = '\\' then ['\\', chr] else [chr]

/-- Escape a character outside of a character class if necessary (source
push_escaped); the condition lists exactly the characters of the source
string of metacharacters. -/
def push_escaped (chr : Char) : List Char :=
  if chr = '[' ∨ chr = '\x7b' ∨ chr = '(' ∨ chr = '|' ∨ chr = '^' ∨ chr = '$' ∨
      chr = '.' ∨ chr = '*' ∨ chr = '?' ∨ chr = '+' ∨ chr = '\\' then
    ['\\', chr]
  else [chr]

/-- Interpret an escaped character: return the one that was meant. -/
def map_letter_escape (chr : Char) : Char :=
  if chr = 'a' then '\x07'
  else if chr = 'b' then '\x08'
  else if chr = 'e' then '\x1b'
  else if chr = 'f' then '\x0c'
  else if chr = 'n' then '\x0a'
  else if chr = 'r' then '\x0d'
  else if chr = 't' then '\x09'
  else if chr = 'v' then '\x0b'
  else chr

/-- Unescape a character and escape it if needed. -/
def push_escaped_special (chr : Char) : List Char :=
  push_escaped (map_letter_escape chr)

/-- One step of the exclusion loop of handle_slash_exclude: the items
pushed for one input item, following the source match arms in order. -/
def exItem : ClassItem → List ClassItem
  | .chr c => if c = '/' then [] else [ .chr c]
  | .rng lo hi =>
    if lo = '.' ∧ hi = '/' then [ .chr '.']
    else if hi = '/' then [ .rng lo '.']
    else if lo = '/' ∧ hi = '0' then [ .chr '0']
    else if lo = '/' then [ .rng '0' hi]
    else if lo > '/' ∨ hi < '/' then [ .rng lo hi]
    else
      (if lo = '.' then [ .chr '.'] else [ .rng lo '.']) ++
        (if hi = '0' then [ .chr '0'] else [ .rng '0' hi])

/-- Exclude the slash character from classes that would include it. -/
def handle_slash_exclude (acc : ClassAccumulator) : ClassAccumulator :=
  ⟨acc.negated, acc.items.flatMap exItem⟩

/-- Does one class item cover the slash character. -/
def coversSlash : ClassItem → Bool
  | .chr c => decide (c = '/')
  | .rng lo hi => decide (lo ≤ '/' ∧ '/' ≤ hi)

/-- Make sure a character class will match a slash. -/
def handle_slash_include (acc : ClassAccumulator) : ClassAccumulator :=
  if acc.items.any coversSlash then acc
  else ⟨acc.negated, acc.items ++ [ .chr '/']⟩

/-- Character classes should never match a slash when used in filenames:
include the slash in a negated class, exclude it otherwise. -/
def handle_slash (acc : ClassAccumulator) : ClassAccumulator :=
  if acc.negated then handle_slash_include acc else handle_slash_exclude acc

/-- Order used to sort the character set of a class. -/
def charLE (a b : Char) : Prop := a ≤ b

instance : DecidableRel charLE := fun a b => inferInstanceAs (Decidable (a ≤ b))

/-- Lexicographic order on ranges, as derived Ord sorts pairs in Rust. -/
def rangeLE (a b : Char × Char) : Prop :=
  a.1 < b.1 ∨ (a.1 = b.1 ∧ a.2 ≤ b.2)

instance : DecidableRel rangeLE := fun a b =>
  inferInstanceAs (Decidable (a.1 < b.1 ∨ (a.1 = b.1 ∧ a.2 ≤ b.2)))

/-- Lexicographic order on strings, as sort_unstable orders Rust strings. -/
def listLE : List Char → List Char → Prop
  | [], _ => True
  | _ :: _, [] => False
  | a :: as, b :: bs => a < b ∨ (a = b ∧ listLE as bs)

def listLE.dec : (l₁ l₂ : List Char) → Decidable (listLE l₁ l₂)
  | [], _ => .isTrue True.intro
  | _ :: _, [] => .isFalse (fun h => h)
  | a :: as, b :: bs =>
    have : Decidable (listLE as bs) := listLE.dec as bs
    inferInstanceAs (Decidable (a < b ∨ (a = b ∧ listLE as bs)))

instance : DecidableRel listLE := listLE.dec

/-- Projection of the single characters of a class accumulator (the
first filter_map collect of close_class). -/
def chrProj : ClassItem → Option Char
  | .chr c => some c
  | .rng _ _ => none

/-- Projection of the ranges of a class accumulator (the second
filter_map collect of close_class). -/
def rngProj : ClassItem → Option (Char × Char)
  | .chr _ => none
  | .rng lo hi => some (lo, hi)

/-- Serialization of one sorted range inside a class. -/
def serializeRange (p : Char × Char) : List Char :=
  push_escaped_in_class p.1 ++ ['-'] ++ push_escaped_in_class p.2

/-- Serialization half of close_class, applied after handle_slash. The
source collects the characters and the ranges into hash sets and then
sorts the collected vectors, so the iteration order of the hash sets is
irrelevant; the collect-and-sort pipeline is therefore modelled as dedup
followed by sort. The dash is removed from the character set and, when it
was present, appended last. -/
def serializeClass (acc : ClassAccumulator) : List Char :=
  ['['] ++ (if acc.negated then ['^'] else [])
    ++ (List.insertionSort charLE
          (((acc.items.filterMap chrProj).dedup).erase '-')).flatMap push_escaped_in_class
    ++ (List.insertionSort rangeLE ((acc.items.filterMap rngProj).dedup)).flatMap serializeRange
    ++ (if '-' ∈ (acc.items.filterMap chrProj).dedup then ['-'] else [])
    ++ [']']

/-- Convert a glob character class to a regular expression one. -/
def close_class (gacc : ClassAccumulator) : List Char :=
  serializeClass (handle_slash gacc)

/-- Escape every character of one alternation branch through the general
escaper (the inner loop of close_alternate). -/
def escStr (item : List Char) : List Char :=
  item.flatMap push_escaped

/-- Convert a glob alternatives list to a regular expression pattern:
deduplicate (the source collects into a hash set, whose iteration order
is irrelevant after the sort), escape every branch, sort, join with the
pipe character and parenthesize. -/
def close_alternate (gathered : List (List Char)) : List Char :=
  ['('] ++ List.intercalate ['|'] (List.insertionSort listLE (gathered.dedup.map escStr))
    ++ [')']

/-- One transition of the pattern scan: the closure passed to try_fold in
glob_to_regex, with the output buffer threaded explicitly. Returns the
extended buffer and the next state, or the failure that aborts the scan.
The nested conditionals follow the source match arms in order. -/
def globStep (res : List Char) (st : State) (chr : Char) :
    Except FError (List Char × State) :=
  match st with
  | .Literal =>
    if chr = '\\' then .ok (res, .Escape)
    else if chr = '[' then .ok (res, .ClassStart)
    else if chr = '\x7b' then .ok (res, .Alternate [] [])
    else if chr = '?' then .ok (res ++ ['[', '^', '/', ']'], .Literal)
    else if chr = '*' then .ok (res ++ ['.', '*'], .Literal)
    else if chr = ']' ∨ chr = '\x7d' ∨ chr = '.' then .ok (res ++ ['\\', chr], .Literal)
    else .ok (res ++ [chr], .Literal)
  | .ClassStart =>
    if chr = '!' then .ok (res, .Class ⟨true, []⟩)
    else if chr = '-' then .ok (res, .Class ⟨false, [ .chr '-']⟩)
    else if chr = ']' then .ok (res, .Class ⟨false, [ .chr ']']⟩)
    else if chr = '\\' then .ok (res, .ClassEscape ⟨false, []⟩)
    else .ok (res, .Class ⟨false, [ .chr chr]⟩)
  | .Class acc =>
    if chr = ']' then
      if acc.items = [] then .ok (res, .Class ⟨acc.negated, [ .chr ']']⟩)
      else .ok (res ++ close_class acc, .Literal)
    else if chr = '-' then
      match acc.items.getLast? with
      | none => .ok (res, .Class ⟨acc.negated, acc.items ++ [ .chr '-']⟩)
      | some (.rng _ _) => .ok (res, .ClassRangeDash acc)
      | some (.chr lo) => .ok (res, .ClassRange ⟨acc.negated, acc.items.dropLast⟩ lo)
    else if chr = '\\' then .ok (res, .ClassEscape acc)
    else .ok (res, .Class ⟨acc.negated, acc.items ++ [ .chr chr]⟩)
  | .ClassRangeDash acc =>
    if chr = ']' then
      .ok (res ++ close_class ⟨acc.negated, acc.items ++ [ .chr '-']⟩, .Literal)
    else
      match acc.items.getLast? with
      | some (.rng lo hi) => .error (.RangeAfterRange lo hi)
      | _ => .error .NotImplemented
  | .ClassEscape acc =>
    .ok (res, .Class ⟨acc.negated, acc.items ++ [ .chr (map_letter_escape chr)]⟩)
  | .ClassRange acc lo =>
    if chr = '\\' then .error .NotImplemented
    else if chr = ']' then
      .ok (res ++ close_class ⟨acc.negated, acc.items ++ [ .chr lo, .chr '-']⟩, .Literal)
    else if lo > chr then .error (.ReversedRange lo chr)
    else if lo = chr then .ok (res, .Class ⟨acc.negated, acc.items ++ [ .chr lo]⟩)
    else .ok (res, .Class ⟨acc.negated, acc.items ++ [ .rng lo chr]⟩)
  | .Alternate current gathered =>
    if chr = ',' then .ok (res, .Alternate [] (gathered ++ [current]))
    else if chr = '\x7d' then
      if current = [] ∧ gathered = [] then
        .ok (res ++ push_escaped '\x7b' ++ push_escaped '\x7d', .Literal)
      else .ok (res ++ close_alternate (gathered ++ [current]), .Literal)
    else if chr = '\\' then .ok (res, .AlternateEscape current gathered)
    else if chr = '[' then .error .NotImplemented
    else .ok (res, .Alternate (current ++ [chr]) gathered)
  | .AlternateEscape current gathered =>
    .ok (res, .Alternate (current ++ [map_letter_escape chr]) gathered)
  | .Escape => .ok (res ++ push_escaped_special chr, .Literal)

/-- The try_fold of glob_to_regex: scan the pattern left to right,
threading the buffer and the state, aborting on the first failure. -/
def scanGlob : List Char → List Char → State → Except FError (List Char × State)
  | [], res, st => .ok (res, st)
  | c :: cs, res, st =>
    match globStep res st c with
    | .error e => .error e
    | .ok (res2, st2) => scanGlob cs res2 st2

/-- An item of an engine character class: a single character or an
inclusive range. -/
inductive RItem where
  | ch (c : Char)
  | range (lo hi : Char)
deriving DecidableEq, Repr

/-- Abstract syntax of the compiled matcher produced by the modelled
engine: the empty word, the empty set, one character, a possibly negated
character class, the dot (any character but newline), concatenation,
alternation and the star. -/
inductive RE where
  | eps
  | void
  | ch (c : Char)
  | cls (neg : Bool) (items : List RItem)
  | anyNoNL
  | cat (r s : RE)
  | alt (r s : RE)
  | star (r : RE)
deriving DecidableEq, Repr

/-- Membership of a character in one engine class item. -/
def RItem.memb (c : Char) : RItem → Bool
  | .ch d => decide (c = d)
  | .range lo hi => decide (lo ≤ c ∧ c ≤ hi)

/-- Membership of a character in an engine class body. -/
def classMem (items : List RItem) (c : Char) : Bool :=
  items.any (RItem.memb c)

/-- Does the expression accept the empty word. -/
def nullable : RE → Bool
  | .eps => true
  | .void => false
  | .ch _ => false
  | .cls _ _ => false
  | .anyNoNL => false
  | .cat r s => nullable r && nullable s
  | .alt r s => nullable r || nullable s
  | .star _ => true

/-- Brzozowski derivative of the expression by one character. -/
def deriv : RE → Char → RE
  | .eps, _ => .void
  | .void, _ => .void
  | .ch d, c => if c = d then .eps else .void
  | .cls neg items, c => if classMem items c ≠ neg then .eps else .void
  | .anyNoNL, c => if c = '\x0a' then .void else .eps
  | .cat r s, c =>
    if nullable r then .alt (.cat (deriv r c) s) (deriv s c)
    else .cat (deriv r c) s
  | .alt r s, c => .alt (deriv r c) (deriv s c)
  | .star r, c => .cat (deriv r c) (.star r)

/-- Whole-string matching of the compiled expression, via derivatives. -/
def rmatch (r : RE) (s : List Char) : Bool :=
  nullable (s.foldl deriv r)

/-- Modelled from the spec: one element of a character class body in the
engine dialect, either a backslash-escaped character or a plain one. The
closing bracket ends the body and an open bracket or a trailing bare
backslash is rejected. -/
def parseClsElem : List Char → Option (Char × List Char)
  | '\\' :: c :: t => some (c, t)
  | '\\' :: [] => none
  | ']' :: _ => none
  | '[' :: _ => none
  | c :: t => some (c, t)
  | [] => none

/-- Modelled from the spec: the body of a character class in the engine
dialect. Ranges are read eagerly: an element, a dash and a further
element form a range, except when the dash is directly followed by the
closing bracket, in which case the dash is a literal member. A reversed
range is rejected, as the engine rejects it. -/
def parseClsItems : Nat → List Char → Option (List RItem × List Char)
  | 0, _ => none
  | _ + 1, ']' :: t => some ([], t)
  | fuel + 1, s =>
    match parseClsElem s with
    | none => none
    | some (x, t) =>
      match t with
      | '-' :: u =>
        if u.head? = some ']' then
          match parseClsItems fuel u with
          | none => none
          | some (items, r) => some (.ch x :: .ch '-' :: items, r)
        else
          match parseClsElem u with
          | none => none
          | some (y, v) =>
            if x ≤ y then
              match parseClsItems fuel v with
              | none => none
              | some (items, r) => some (.range x y :: items, r)
            else none
      | _ =>
        match parseClsItems fuel t with
        | none => none
        | some (items, r) => some (.ch x :: items, r)

/-- Modelled from the spec: one branch of an alternation group, a run of
literal characters (escaped or plain) up to a pipe or the closing
parenthesis; metacharacters that the compiler always escapes are not
accepted in plain position. -/
def parseBranch : Nat → List Char → Option (RE × List Char)
  | 0, _ => none
  | fuel + 1, s =>
    match s with
    | [] => none
    | '|' :: _ => some (.eps, s)
    | ')' :: _ => some (.eps, s)
    | '\\' :: c :: t =>
      match parseBranch fuel t with
      | none => none
      | some (r, rest) => some (.cat (.ch c) r, rest)
    | c :: t =>
      if c = '\\' ∨ c = '(' ∨ c = '[' ∨ c = '*' ∨ c = '+' ∨ c = '?' ∨ c = '.' ∨
          c = '^' ∨ c = '$' ∨ c = '\x7b' then none
      else
        match parseBranch fuel t with
        | none => none
        | some (r, rest) => some (.cat (.ch c) r, rest)

/-- Modelled from the spec: the inside of an alternation group, branches
separated by pipes and ended by the closing parenthesis. -/
def parseGroup : Nat → List Char → Option (RE × List Char)
  | 0, _ => none
  | fuel + 1, s =>
    match parseBranch (s.length + 1) s with
    | none => none
    | some (b, rest) =>
      match rest with
      | ')' :: t => some (b, t)
      | '|' :: t =>
        match parseGroup fuel t with
        | none => none
        | some (r, u) => some (.alt b r, u)
      | _ => none

/-- Modelled from the spec: one atom of the emitted dialect: an escaped
literal, a class, a group, the dot, or a plain literal character.
Repetition operators without an operand, stray closing parentheses and
the constructs the compiler always escapes are rejected, as the engine
rejects or reinterprets them. -/
def parseAtom : List Char → Option (RE × List Char)
  | '\\' :: c :: t => some (.ch c, t)
  | '\\' :: [] => none
  | '[' :: '^' :: u =>
    (match parseClsItems (u.length + 1) u with
     | none => none
     | some ([], _) => none
     | some (items, rest) => some (.cls true items, rest))
  | '[' :: t =>
    (match parseClsItems (t.length + 1) t with
     | none => none
     | some ([], _) => none
     | some (items, rest) => some (.cls false items, rest))
  | '(' :: t => parseGroup (t.length + 1) t
  | '.' :: t => some (.anyNoNL, t)
  | c :: t =>
    if c = ')' ∨ c = '|' ∨ c = '*' ∨ c = '+' ∨ c = '?' ∨ c = '^' ∨ c = '$' ∨
        c = '\x7b' then none
    else some (.ch c, t)
  | [] => none

/-- Modelled from the spec: the sequence of atoms of the emitted dialect,
each optionally followed by a star or plus repetition. -/
def parseAtoms : Nat → List Char → Option (List RE)
  | 0, _ => none
  | _ + 1, [] => some []
  | fuel + 1, s =>
    match parseAtom s with
    | none => none
    | some (r, rest) =>
      match rest with
      | '*' :: t =>
        (match parseAtoms fuel t with
         | none => none
         | some l => some (.star r :: l))
      | '+' :: t =>
        (match parseAtoms fuel t with
         | none => none
         | some l => some (.cat r (.star r) :: l))
      | _ =>
        match parseAtoms fuel rest with
        | none => none
        | some l => some (r :: l)

/-- Modelled from the spec: parsing of a full emitted expression, a start
anchor, a body of atoms and an end anchor. -/
def parseRegex (s : List Char) : Option RE :=
  match s with
  | '^' :: t =>
    (match t.getLast? with
     | some '$' =>
       (match parseAtoms (t.length + 1) t.dropLast with
        | none => none
        | some l => some (l.foldr .cat .eps))
     | _ => none)
  | _ => none

/-- Modelled from the spec: engine compilation (Regex new in the source).
Success yields the compiled matcher; rejection is surfaced as
InvalidRegex carrying the generated text. -/
def engineCompile (re : List Char) : Except FError RE :=
  match parseRegex re with
  | some r => .ok r
  | none => .error (.InvalidRegex re)

/-- The end-of-input dispatch of glob_to_regex: only the Literal state
accepts; every other state names the construct left open. -/
def finalizeState (p : List Char × State) : Except FError RE :=
  match p.2 with
  | .Literal => engineCompile (p.1 ++ ['$'])
  | .Escape => .error .BareEscape
  | .ClassStart => .error .UnclosedClass
  | .Class _ => .error .UnclosedClass
  | .ClassRange _ _ => .error .UnclosedClass
  | .ClassRangeDash _ => .error .UnclosedClass
  | .ClassEscape _ => .error .UnclosedClass
  | .Alternate _ _ => .error .UnclosedAlternation
  | .AlternateEscape _ _ => .error .UnclosedAlternation

/-- Parse a shell glob-like pattern into a compiled regular expression:
scan the pattern from the initial Literal state with the buffer holding
the start anchor, then dispatch on the terminal state. -/
def glob_to_regex (pattern : List Char) : Except FError RE :=
  match scanGlob pattern ['^'] .Literal with
  | .error e => .error e
  | .ok p => finalizeState p

/-- Did compilation succeed. -/
def exceptOk : Except FError RE → Bool
  | .ok _ => true
  | .error _ => false

/-- Compile a pattern and run the matcher on a candidate, the
compile-then-is-match usage of the crate; none when compilation fails. -/
def globMatches (pat cand : List Char) : Option Bool :=
  match glob_to_regex pat with
  | .ok r => some (rmatch r cand)
  | .error _ => none

end Fnmatch

namespace Fnmatch

/-! Order properties of the sorting relations, needed to show that the
sorted serializations are canonical. -/

instance : IsTotal Char charLE := ⟨fun a b => le_total a b⟩

instance : IsTrans Char charLE := ⟨fun _ _ _ h h2 => le_trans h h2⟩

instance : IsAntisymm Char charLE := ⟨fun _ _ h h2 => le_antisymm h h2⟩

instance : IsTotal (Char × Char) rangeLE := ⟨fun a b => by
  rcases lt_trichotomy a.1 b.1 with h | h | h
  · exact Or.inl (Or.inl h)
  · rcases le_total a.2 b.2 with h2 | h2
    · exact Or.inl (Or.inr ⟨h, h2⟩)
    · exact Or.inr (Or.inr ⟨h.symm, h2⟩)
  · exact Or.inr (Or.inl h)⟩

instance : IsTrans (Char × Char) rangeLE := ⟨fun a b c hab hbc => by
  rcases hab with h1 | ⟨he, hr⟩ <;> rcases hbc with h2 | ⟨he2, hr2⟩
  · exact Or.inl (h1.trans h2)
  · exact Or.inl (by rw [← he2]; exact h1)
  · exact Or.inl (by rw [he]; exact h2)
  · exact Or.inr ⟨he.trans he2, hr.trans hr2⟩⟩

instance : IsAntisymm (Char × Char) rangeLE := ⟨fun a b hab hba => by
  rcases hab with h1 | ⟨he, hr⟩
  · rcases hba with h2 | ⟨he2, hr2⟩
    · exact absurd (h1.trans h2) (lt_irrefl a.1)
    · exact absurd h1 (by rw [he2]; exact lt_irrefl a.1)
  · rcases hba with h2 | ⟨he2, hr2⟩
    · exact absurd h2 (by rw [he]; exact lt_irrefl b.1)
    · exact Prod.ext he (le_antisymm hr hr2)⟩

instance : IsTotal (List Char) listLE := ⟨by
  intro l₁
  induction l₁ with
  | nil => intro l₂; exact Or.inl True.intro
  | cons a as ih =>
    intro l₂
    cases l₂ with
    | nil => exact Or.inr True.intro
    | cons b bs =>
      rcases lt_trichotomy a b with h | h | h
      · exact Or.inl (Or.inl h)
      · rcases ih bs with h2 | h2
        · exact Or.inl (Or.inr ⟨h, h2⟩)
        · exact Or.inr (Or.inr ⟨h.symm, h2⟩)
      · exact Or.inr (Or.inl h)⟩

instance : IsTrans (List Char) listLE := ⟨by
  intro l₁
  induction l₁ with
  | nil => intro l₂ l₃ _ _; exact True.intro
  | cons a as ih =>
    intro l₂ l₃ h h2
    cases l₂ with
    | nil => exact h.elim
    | cons b bs =>
      cases l₃ with
      | nil => exact h2.elim
      | cons c cs =>
        rcases h with h1 | ⟨he, hr⟩ <;> rcases h2 with h3 | ⟨he2, hr2⟩
        · exact Or.inl (h1.trans h3)
        · exact Or.inl (by rw [← he2]; exact h1)
        · exact Or.inl (by rw [he]; exact h3)
        · exact Or.inr ⟨he.trans he2, ih bs cs hr hr2⟩⟩

instance : IsAntisymm (List Char) listLE := ⟨by
  intro l₁
  induction l₁ with
  | nil =>
    intro l₂ _ h2
    cases l₂ with
    | nil => rfl
    | cons b bs => exact h2.elim
  | cons a as ih =>
    intro l₂ h h2
    cases l₂ with
    | nil => exact h.elim
    | cons b bs =>
      rcases h with h1 | ⟨he, hr⟩
      · rcases h2 with h3 | ⟨he2, hr2⟩
        · exact absurd (h1.trans h3) (lt_irrefl a)
        · exact absurd h1 (by rw [he2]; exact lt_irrefl a)
      · rcases h2 with h3 | ⟨he2, hr2⟩
        · exact absurd h3 (by rw [he]; exact lt_irrefl b)
        · rw [he, ih bs hr hr2]⟩

/-- Sorting by an antisymmetric total transitive relation is canonical:
permuted inputs sort to the same list. -/
theorem insertionSort_eq_of_perm {α : Type} {r : α → α → Prop} [DecidableRel r]
    [IsTotal α r] [IsTrans α r] [IsAntisymm α r] {l₁ l₂ : List α}
    (h : l₁.Perm l₂) : List.insertionSort r l₁ = List.insertionSort r l₂ :=
  List.eq_of_perm_of_sorted
    ((List.perm_insertionSort r l₁).trans (h.trans (List.perm_insertionSort r l₂).symm))
    (List.sorted_insertionSort r l₁) (List.sorted_insertionSort r l₂)

/-- The negation flag survives handle_slash unchanged. -/
theorem handle_slash_negated (acc : ClassAccumulator) :
    (handle_slash acc).negated = acc.negated := by
  unfold handle_slash handle_slash_include handle_slash_exclude
  split
  · split <;> rfl
  · rfl

/-- Membership in the items of handle_slash is determined by membership
in the input items (given equal negation flags). -/
theorem handle_slash_mem (a₁ a₂ : ClassAccumulator) (hneg : a₁.negated = a₂.negated)
    (hm : ∀ i, i ∈ a₁.items ↔ i ∈ a₂.items) :
    ∀ i, i ∈ (handle_slash a₁).items ↔ i ∈ (handle_slash a₂).items := by
  intro i
  have hiff : (a₁.items.any coversSlash = true) ↔ (a₂.items.any coversSlash = true) := by
    simp only [List.any_eq_true]
    exact ⟨fun ⟨x, hx, hc⟩ => ⟨x, (hm x).mp hx, hc⟩,
      fun ⟨x, hx, hc⟩ => ⟨x, (hm x).mpr hx, hc⟩⟩
  have hany : a₁.items.any coversSlash = a₂.items.any coversSlash := by
    cases h2 : a₂.items.any coversSlash
    · cases h1 : a₁.items.any coversSlash
      · rfl
      · rw [h2] at hiff; exact absurd (hiff.mp h1) (by simp)
    · exact hiff.mpr h2
  unfold handle_slash handle_slash_include handle_slash_exclude
  rw [hneg, hany]
  by_cases hn : a₂.negated = true
  · simp only [if_pos hn]
    by_cases hc : a₂.items.any coversSlash = true
    · simp only [if_pos hc]
      exact hm i
    · simp only [if_neg hc, List.mem_append]
      exact or_congr (hm i) Iff.rfl
  · simp only [if_neg hn, List.mem_flatMap]
    exact ⟨fun ⟨x, hx, hi⟩ => ⟨x, (hm x).mp hx, hi⟩,
      fun ⟨x, hx, hi⟩ => ⟨x, (hm x).mpr hx, hi⟩⟩

end Fnmatch

namespace Fnmatch

/-- The derivative of the empty-set expression stays empty under any
input, so it accepts nothing. -/
theorem foldl_deriv_void : ∀ s : List Char, s.foldl deriv RE.void = RE.void
  | [] => rfl
  | _ :: t => foldl_deriv_void t

/-- C1: the claim says a candidate in which the star consumed a slash is
rejected; the code compiles the star to a dot-star fragment whose dot
does match the path separator, so the matcher built from the single-star
pattern accepts a string containing a slash. This theorem evaluates the
code at the failing input. -/
theorem star_matches_across_slash :
    glob_to_regex ['*'] = .ok (RE.cat (RE.star RE.anyNoNL) RE.eps)
    ∧ globMatches ['*'] ['a', '/', 'b'] = some true :=
  ⟨rfl, rfl⟩

/-- C2: the claim says a pattern of non-special characters round-trips as
a literal; the code pushes a plus sign into the regex unescaped, so the
matcher of the pattern made of the letter a, a plus and the letter b
rejects the pattern itself and accepts a repeated letter instead. This
theorem evaluates the code at the failing input. -/
theorem literal_plus_mishandled :
    globMatches ['a', '+', 'b'] ['a', '+', 'b'] = some false
    ∧ globMatches ['a', '+', 'b'] ['a', 'a', 'b'] = some true :=
  ⟨rfl, rfl⟩

/-- C3 counterexample: the claim says that an end character greater than
the pending start fails with ReversedRange; the code accepts the digits
zero to nine in ascending order, pushing the range, and the whole pattern
compiles. -/
theorem range_ascending_accepted :
    globStep ['^'] (State.ClassRange ⟨false, []⟩ '0') '9' =
      .ok (['^'], State.Class ⟨false, [ClassItem.rng '0' '9']⟩)
    ∧ exceptOk (glob_to_regex ['[', '0', '-', '9', ']']) = true :=
  ⟨rfl, rfl⟩

/-- C3 amended: in the ClassRange state holding the pending start, for an
ordinary next character (not a backslash and not a closing bracket) the
three-way comparison goes the other way round from the claim: an end
character below the start fails with ReversedRange, an equal one
collapses to the single character, and a greater one pushes the range. -/
theorem classrange_threeway (acc : ClassAccumulator) (lo e : Char) (res : List Char)
    (h1 : e ≠ '\\') (h2 : e ≠ ']') :
    globStep res (State.ClassRange acc lo) e =
      if lo > e then .error (.ReversedRange lo e)
      else if lo = e then .ok (res, State.Class ⟨acc.negated, acc.items ++ [ClassItem.chr lo]⟩)
      else .ok (res, State.Class ⟨acc.negated, acc.items ++ [ClassItem.rng lo e]⟩) := by
  simp only [globStep]
  rw [if_neg h1, if_neg h2]

theorem classrange_threeway_witness :
    ('9' : Char) ≠ '\\' ∧ ('9' : Char) ≠ ']' ∧
      globStep ['^'] (State.ClassRange ⟨false, []⟩ '0') '9' =
        .ok (['^'], State.Class ⟨false, [ClassItem.rng '0' '9']⟩) :=
  ⟨by decide, by decide, by
    rw [classrange_threeway ⟨false, []⟩ '0' '9' ['^'] (by decide) (by decide)]
    rfl⟩

/-- C4: the claim says the engine-rejection branch is unreachable for a
pattern whose scan ends in the accepting Literal state; a lone opening
parenthesis is scanned to the Literal state yet its generated text is an
unclosed group that the engine rejects, so glob_to_regex returns
InvalidRegex. This theorem evaluates the code at the failing input. -/
theorem invalid_regex_reachable :
    scanGlob ['('] ['^'] State.Literal = .ok (['^', '('], State.Literal)
    ∧ glob_to_regex ['('] = .error (.InvalidRegex ['^', '(', '$']) :=
  ⟨rfl, rfl⟩

/-- C5: the claim says the matcher of a negated class always rejects the
path separator; close_class serializes the sorted characters before the
ranges, so the class holding the range from dash to the letter z and the
plus character serializes with the plus first, which the engine reads as
a range from plus to dash followed by the letter z, losing the separator
coverage: the negated matcher accepts the separator. This theorem
evaluates the code at the failing input. -/
theorem negated_class_matches_slash :
    glob_to_regex ['[', '!', '-', '-', 'z', '+', ']'] =
      .ok (RE.cat (RE.cls true [RItem.range '+' '-', RItem.ch 'z']) RE.eps)
    ∧ globMatches ['[', '!', '-', '-', 'z', '+', ']'] ['/'] = some true :=
  ⟨rfl, rfl⟩

/-- C6 counterexample: the claim says an alternation brace inside a
character class fails; the code accepts the brace characters as literal
class members and the pattern compiles. -/
theorem altern_in_class_accepted :
    exceptOk (glob_to_regex ['[', '\x7b', 'a', ',', 'b', '\x7d', ']']) = true :=
  rfl

/-- C6 amended: a backslash directly after the dash of a pending class
range fails with NotImplemented, as does an open bracket inside an
alternation branch, and both full patterns abort with that failure; an
open brace inside a character class however is accepted as a literal
member rather than rejected. -/
theorem notimplemented_cases :
    (∀ (res : List Char) (acc : ClassAccumulator) (lo : Char),
      globStep res (State.ClassRange acc lo) '\\' = .error .NotImplemented)
    ∧ (∀ (res current : List Char) (gathered : List (List Char)),
      globStep res (State.Alternate current gathered) '[' = .error .NotImplemented)
    ∧ glob_to_regex ['[', 'a', '-', '\\'] = .error .NotImplemented
    ∧ glob_to_regex ['\x7b', 'a', '['] = .error .NotImplemented
    ∧ (∀ (res : List Char) (acc : ClassAccumulator),
      globStep res (State.Class acc) '\x7b' =
        .ok (res, State.Class ⟨acc.negated, acc.items ++ [ClassItem.chr '\x7b']⟩)) :=
  ⟨fun _ _ _ => rfl, fun _ _ _ => rfl, rfl, rfl, fun _ _ => rfl⟩

/-- C7 counterexample: the claim says that ending the scan in the Literal
state yields success; the lone-parenthesis pattern ends the scan in the
Literal state and still fails, because the engine rejects the generated
text. -/
theorem literal_endstate_not_success :
    scanGlob ['('] ['^'] State.Literal = .ok (['^', '('], State.Literal)
    ∧ glob_to_regex ['('] = .error (.InvalidRegex ['^', '(', '$']) :=
  ⟨rfl, rfl⟩

/-- C7 amended: the terminal state of the scan fully determines the
outcome: the Literal state hands the anchored text to the engine (success
unless the engine rejects it, which is surfaced as InvalidRegex); the
Escape state yields BareEscape; every class state yields UnclosedClass;
both alternation states yield UnclosedAlternation. The three concrete
scenarios of the claim are included. -/
theorem endstate_table :
    (∀ (pat res : List Char) (st : State),
      scanGlob pat ['^'] State.Literal = .ok (res, st) →
      glob_to_regex pat =
        match st with
        | .Literal => engineCompile (res ++ ['$'])
        | .Escape => .error .BareEscape
        | .ClassStart => .error .UnclosedClass
        | .Class _ => .error .UnclosedClass
        | .ClassRange _ _ => .error .UnclosedClass
        | .ClassRangeDash _ => .error .UnclosedClass
        | .ClassEscape _ => .error .UnclosedClass
        | .Alternate _ _ => .error .UnclosedAlternation
        | .AlternateEscape _ _ => .error .UnclosedAlternation)
    ∧ glob_to_regex ['\\'] = .error .BareEscape
    ∧ glob_to_regex ['[', '0', '-', '9'] = .error .UnclosedClass
    ∧ glob_to_regex ['\x7b', 'a', ',', 'b'] = .error .UnclosedAlternation := by
  refine ⟨?_, rfl, rfl, rfl⟩
  intro pat res st h
  unfold glob_to_regex
  rw [h]
  cases st <;> rfl

theorem endstate_table_witness :
    scanGlob [] ['^'] State.Literal = .ok (['^'], State.Literal) ∧
      glob_to_regex [] = engineCompile (['^'] ++ ['$']) :=
  ⟨rfl, endstate_table.1 [] ['^'] State.Literal rfl⟩

/-- C10: the empty pattern compiles (the scan ends in the initial Literal
state having consumed nothing) to the matcher of the empty word, which
accepts the empty string and rejects every non-empty string. -/
theorem empty_pattern_ok :
    glob_to_regex [] = .ok RE.eps
    ∧ rmatch RE.eps [] = true
    ∧ ∀ s : List Char, s ≠ [] → rmatch RE.eps s = false := by
  refine ⟨rfl, rfl, ?_⟩
  intro s hs
  cases s with
  | nil => exact absurd rfl hs
  | cons c t =>
    show nullable (List.foldl deriv RE.eps (c :: t)) = false
    rw [List.foldl_cons]
    show nullable (t.foldl deriv RE.void) = false
    rw [foldl_deriv_void]
    rfl

theorem empty_pattern_ok_witness :
    (['x'] : List Char) ≠ [] ∧ rmatch RE.eps ['x'] = false :=
  ⟨by decide, empty_pattern_ok.2.2 ['x'] (by decide)⟩

end Fnmatch

namespace Fnmatch

/-- C8: the regex text emitted for a closed character class depends only
on the set of accumulated items and the negation flag, not on the order
or duplication of items (the hash-set collection is followed by a sort,
so the output is deterministic), and the two example patterns compile to
identical matchers, both emitting the same canonical class text. -/
theorem close_class_set_determined :
    (∀ a₁ a₂ : ClassAccumulator, a₁.negated = a₂.negated →
      (∀ i, i ∈ a₁.items ↔ i ∈ a₂.items) → close_class a₁ = close_class a₂)
    ∧ glob_to_regex ['[', 'a', 'b', '0', '-', '9', 'c', '-', ']'] =
        glob_to_regex ['[', '0', '-', '9', 'a', 'b', 'c', '-', ']']
    ∧ scanGlob ['[', 'a', 'b', '0', '-', '9', 'c', '-', ']'] ['^'] State.Literal =
        .ok (['^', '[', 'a', 'b', 'c', '0', '-', '9', '-', ']'], State.Literal) := by
  refine ⟨?_, rfl, rfl⟩
  intro a₁ a₂ hneg hm
  have hm2 := handle_slash_mem a₁ a₂ hneg hm
  have hneg2 : (handle_slash a₁).negated = (handle_slash a₂).negated := by
    rw [handle_slash_negated, handle_slash_negated, hneg]
  have hchars : ∀ c : Char,
      c ∈ ((handle_slash a₁).items.filterMap chrProj).dedup ↔
        c ∈ ((handle_slash a₂).items.filterMap chrProj).dedup := by
    intro c
    simp only [List.mem_dedup, List.mem_filterMap]
    exact ⟨fun ⟨i, hi, hp⟩ => ⟨i, (hm2 i).mp hi, hp⟩,
      fun ⟨i, hi, hp⟩ => ⟨i, (hm2 i).mpr hi, hp⟩⟩
  have hpc : (((handle_slash a₁).items.filterMap chrProj).dedup).Perm
      (((handle_slash a₂).items.filterMap chrProj).dedup) :=
    (List.perm_ext_iff_of_nodup (List.nodup_dedup _) (List.nodup_dedup _)).mpr hchars
  have hpr : (((handle_slash a₁).items.filterMap rngProj).dedup).Perm
      (((handle_slash a₂).items.filterMap rngProj).dedup) :=
    (List.perm_ext_iff_of_nodup (List.nodup_dedup _) (List.nodup_dedup _)).mpr (by
      intro p
      simp only [List.mem_dedup, List.mem_filterMap]
      exact ⟨fun ⟨i, hi, hp⟩ => ⟨i, (hm2 i).mp hi, hp⟩,
        fun ⟨i, hi, hp⟩ => ⟨i, (hm2 i).mpr hi, hp⟩⟩)
  unfold close_class serializeClass
  rw [hneg2, insertionSort_eq_of_perm (hpc.erase '-'), insertionSort_eq_of_perm hpr]
  simp only [hchars '-']

theorem close_class_set_determined_witness :
    close_class ⟨false, [ClassItem.chr 'a', ClassItem.chr 'a']⟩ =
      close_class ⟨false, [ClassItem.chr 'a']⟩ :=
  close_class_set_determined.1 ⟨false, [ClassItem.chr 'a', ClassItem.chr 'a']⟩
    ⟨false, [ClassItem.chr 'a']⟩ rfl (fun i => by simp)

/-- C9: close_alternate deduplicates the gathered branches with set
semantics, escapes every branch through the general escaper, sorts the
escaped branches lexicographically and joins them with the pipe inside
parentheses; consequently its output depends only on the set of branches,
and the two example alternation patterns compile to identical matchers. -/
theorem close_alternate_set_determined :
    (∀ gathered : List (List Char), close_alternate gathered =
      ['('] ++ List.intercalate ['|']
        (List.insertionSort listLE (gathered.dedup.map escStr)) ++ [')'])
    ∧ (∀ g₁ g₂ : List (List Char), (∀ b, b ∈ g₁ ↔ b ∈ g₂) →
        close_alternate g₁ = close_alternate g₂)
    ∧ glob_to_regex ['\x7b', 'a', ',', 'a', ',', 'b', '\x7d'] =
        glob_to_regex ['\x7b', 'a', ',', 'b', '\x7d']
    ∧ exceptOk (glob_to_regex ['\x7b', 'a', ',', 'a', ',', 'b', '\x7d']) = true := by
  refine ⟨fun g => rfl, ?_, rfl, rfl⟩
  intro g₁ g₂ hm
  have hd : g₁.dedup.Perm g₂.dedup :=
    (List.perm_ext_iff_of_nodup (List.nodup_dedup _) (List.nodup_dedup _)).mpr
      (fun b => by simp only [List.mem_dedup]; exact hm b)
  unfold close_alternate
  rw [insertionSort_eq_of_perm (hd.map escStr)]

theorem close_alternate_set_determined_witness :
    close_alternate [['a'], ['a'], ['b']] = close_alternate [['a'], ['b']] :=
  close_alternate_set_determined.2.1 [['a'], ['a'], ['b']] [['a'], ['b']]
    (fun b => by simp only [List.mem_cons, List.not_mem_nil, or_false]; tauto)

end Fnmatch
